import Mathlib

/-!
Shallow embedding of the agent-loop controller in `run_AI_analysis.py`.

The script drives a bounded agentic exchange: it fetches a tool catalog,
initializes a transcript `[system, user]`, and then runs up to 10 rounds of
"ask the chat service → if the assistant message carries no tool calls, print
its content and stop; otherwise POST each tool call to the tool service and
append the results as `tool` messages".

External collaborators are modelled as oracles:
  * the chat service is a function from the index of the chat call to the
    assistant message it returns (an arbitrary sequence of responses);
  * the tool service is a function from the POSTed payload (tool name and
    arguments, exactly the fields `run_AI_analysis.py` puts in the JSON body)
    to either a transport error (an exception raised by `requests.post` /
    `.json()`) or a parsed JSON object, modelled as an association list.

The run is instrumented with a trace of observable events: each chat-service
call (recording the catalog and transcript sent), each tool invocation
(recording the payload), and each `print`.  Uncaught Python exceptions
(transport errors, and the `KeyError` raised by `result["result"]` when the
response has no `result` field) surface as a `crashed` outcome.
-/

namespace AgentLoop

/-- A tool-call request emitted by the chat service: `call.id`,
`call.function.name`, `call.function.arguments`. -/
structure ToolCall where
  id : String
  name : String
  arguments : String
  deriving DecidableEq, Repr

/-- A transcript message.  `assistant` carries the (possibly absent) textual
content and the list of tool calls (`None`/empty both modelled as `[]`, which
is exactly the falsiness test `if not msg.tool_calls`). -/
inductive Message where
  | system (content : String)
  | user (content : String)
  | assistant (content : Option String) (tool_calls : List ToolCall)
  | tool (tool_call_id : String) (content : String)
  deriving DecidableEq, Repr

/-- The tool catalog: opaque descriptors fetched once from
`GET /api/tools` and forwarded on every chat call.  The controller never
inspects them, so they are modelled as opaque strings. -/
abbrev ToolCatalog := List String

/-- One assistant response from the chat service
(`response.choices[0].message`). -/
structure AssistantResp where
  content : Option String
  tool_calls : List ToolCall
  deriving DecidableEq, Repr

/-- Result of `requests.post(".../api/tools/call", json={name, arguments})`:
either an exception (connection error, non-JSON body) or a parsed JSON
object, modelled as an association list of string fields. -/
inductive ToolHttpResult where
  | transportError (err : String)
  | response (json : List (String × String))
  deriving DecidableEq, Repr

/-- The chat service as a response oracle: the assistant message returned by
the k-th chat-completions call of the run. -/
abbrev ChatService := Nat → AssistantResp

/-- The tool service as an oracle on the POSTed payload. -/
abbrev ToolService := String → String → ToolHttpResult

/-- Observable events of a run, in order. -/
inductive Event where
  | chatCall (tools : ToolCatalog) (transcript : List Message)
  | toolCall (name : String) (arguments : String)
  | printed (content : Option String)
  deriving DecidableEq, Repr

/-- Final state of the loop: a final answer was printed, the round budget ran
out, or an uncaught exception aborted the script. -/
inductive RunOutcome where
  | completed (content : Option String)
  | exhausted
  | crashed (err : String)
  deriving DecidableEq, Repr

/-- Result of a run: the final `messages` list, the event trace, and the
outcome. -/
structure RunResult where
  transcript : List Message
  trace : List Event
  outcome : RunOutcome
  deriving DecidableEq, Repr

/-- The inner `for call in msg.tool_calls` loop (lines 40-49): POST each call
in order; on success extract `result["result"]` and build the `tool` message.
Returns the `tool` messages appended, the tool-invocation events, and
`some err` if an exception aborted the loop. -/
def runTools (tool : ToolService) : List ToolCall → List Message × List Event × Option String
  | [] => ([], [], none)
  | c :: rest =>
    match tool c.name c.arguments with
    | .transportError e => ([], [Event.toolCall c.name c.arguments], some e)
    | .response js =>
      match List.lookup "result" js with
      | none => ([], [Event.toolCall c.name c.arguments], some "KeyError: result")
      | some r =>
        let (ms, es, err) := runTools tool rest
        (Message.tool c.id r :: ms, Event.toolCall c.name c.arguments :: es, err)

/-- The agentic `for _ in range(10)` loop (lines 27-49), with `fuel` rounds
remaining and `k` chat calls already made.  Each round sends the transcript
and catalog to the chat service, appends the assistant message, and either
prints-and-breaks (no tool calls) or executes the tool calls and recurses. -/
def runLoop (chat : ChatService) (tool : ToolService) (tools : ToolCatalog) :
    Nat → Nat → List Message → RunResult
  | 0, _, transcript => ⟨transcript, [], .exhausted⟩
  | fuel + 1, k, transcript =>
    let resp := chat k
    let msg := Message.assistant resp.content resp.tool_calls
    let t1 := transcript ++ [msg]
    if resp.tool_calls.isEmpty then
      ⟨t1, [Event.chatCall tools transcript, Event.printed resp.content], .completed resp.content⟩
    else
      match runTools tool resp.tool_calls with
      | (ms, es, some e) => ⟨t1 ++ ms, Event.chatCall tools transcript :: es, .crashed e⟩
      | (ms, es, none) =>
        let res := runLoop chat tool tools fuel (k + 1) (t1 ++ ms)
        ⟨res.transcript, Event.chatCall tools transcript :: (es ++ res.trace), res.outcome⟩

/-- The initial `messages` list (lines 11-24). -/
def initMessages (systemPrompt userTask : String) : List Message :=
  [Message.system systemPrompt, Message.user userTask]

/-- One full run of the script with the given collaborators and round
budget. -/
def run (chat : ChatService) (tool : ToolService) (tools : ToolCatalog)
    (maxRounds : Nat) (systemPrompt userTask : String) : RunResult :=
  runLoop chat tool tools maxRounds 0 (initMessages systemPrompt userTask)

/-- The script's hard-coded round budget (`range(10)`). -/
def maxRounds : Nat := 10

/-- The script's hard-coded system prompt. -/
def systemPrompt : String :=
  "You are a musicology research assistant. Use the available tools to analyse the corpus. When you find a relevant passage, write an annotation with a concise tag."

/-- The script's hard-coded user task. -/
def userTask : String :=
  "Search the corpus for uses of the word \x27sublime\x27 and annotate the three most significant passages."

/-- The script as run: budget 10, the fixed prompts. -/
def runScript (chat : ChatService) (tool : ToolService) (tools : ToolCatalog) : RunResult :=
  run chat tool tools maxRounds systemPrompt userTask

/-- The result the controller extracts from a tool-service response:
`none` when the POST raises or the parsed JSON has no `result` field. -/
def toolResult (tool : ToolService) (n a : String) : Option String :=
  match tool n a with
  | .transportError _ => none
  | .response js => List.lookup "result" js

/-- Number of chat-service calls recorded in a trace. -/
def countChat (es : List Event) : Nat :=
  (es.filter fun e => match e with | .chatCall _ _ => true | _ => false).length

/-- The payloads of the tool-service invocations recorded in a trace. -/
def toolPayloads (es : List Event) : List (String × String) :=
  es.filterMap fun e => match e with | .toolCall n a => some (n, a) | _ => none

/-- Everything the script printed, in order. -/
def printedOf (es : List Event) : List (Option String) :=
  es.filterMap fun e => match e with | .printed c => some c | _ => none

/-- The tool-call requests emitted by the assistant messages of a
transcript, in order. -/
def requestsOf (t : List Message) : List ToolCall :=
  t.flatMap fun m => match m with | .assistant _ cs => cs | _ => []

/-- The correlation identifiers of the `tool` messages of a transcript, in
order. -/
def toolMsgIds (t : List Message) : List String :=
  t.filterMap fun m => match m with | .tool i _ => some i | _ => none

/-- True of the messages the loop appends (assistant and tool messages). -/
def Message.isAppended : Message → Bool
  | .assistant _ _ => true
  | .tool _ _ => true
  | _ => false

/-- Whether the run ended in an uncaught exception. -/
def RunOutcome.isCrashed : RunOutcome → Bool
  | .crashed _ => true
  | _ => false

/-- The invocation event a tool-call request gives rise to. -/
def toolEventOf (c : ToolCall) : Event :=
  Event.toolCall c.name c.arguments

/-- The `tool` message built for a request whose invocation succeeds. -/
def toolMsgOf (tool : ToolService) (c : ToolCall) : Message :=
  Message.tool c.id ((toolResult tool c.name c.arguments).getD "")

/-- The assistant message appended for the k-th chat call. -/
def assistantOf (chat : ChatService) (k : Nat) : Message :=
  Message.assistant (chat k).content (chat k).tool_calls

section Homomorphisms

theorem countChat_append (a b : List Event) :
    countChat (a ++ b) = countChat a + countChat b := by
  simp [countChat, List.filter_append]

theorem printedOf_append (a b : List Event) :
    printedOf (a ++ b) = printedOf a ++ printedOf b := by
  simp [printedOf]

theorem toolPayloads_append (a b : List Event) :
    toolPayloads (a ++ b) = toolPayloads a ++ toolPayloads b := by
  simp [toolPayloads]

theorem requestsOf_append (a b : List Message) :
    requestsOf (a ++ b) = requestsOf a ++ requestsOf b := by
  simp [requestsOf]

theorem toolMsgIds_append (a b : List Message) :
    toolMsgIds (a ++ b) = toolMsgIds a ++ toolMsgIds b := by
  simp [toolMsgIds]

theorem countChat_map_toolEventOf (l : List ToolCall) :
    countChat (l.map toolEventOf) = 0 := by
  induction l with
  | nil => rfl
  | cons c rest ih => simp [countChat, toolEventOf, ih]

theorem printedOf_map_toolEventOf (l : List ToolCall) :
    printedOf (l.map toolEventOf) = [] := by
  induction l with
  | nil => rfl
  | cons c rest ih => simp [printedOf, toolEventOf, ih]

theorem toolPayloads_map_toolEventOf (l : List ToolCall) :
    toolPayloads (l.map toolEventOf) = l.map fun c => (c.name, c.arguments) := by
  induction l with
  | nil => rfl
  | cons c rest ih => simpa [toolPayloads, toolEventOf] using ih

theorem toolMsgIds_map_toolMsgOf (tool : ToolService) (l : List ToolCall) :
    toolMsgIds (l.map (toolMsgOf tool)) = l.map ToolCall.id := by
  induction l with
  | nil => rfl
  | cons c rest ih => simpa [toolMsgIds, toolMsgOf] using ih

theorem requestsOf_map_toolMsgOf (tool : ToolService) (l : List ToolCall) :
    requestsOf (l.map (toolMsgOf tool)) = [] := by
  induction l with
  | nil => rfl
  | cons c rest ih => simp [requestsOf, toolMsgOf, ih]

end Homomorphisms

section RunToolsLemmas

theorem runTools_nil (tool : ToolService) : runTools tool [] = ([], [], none) := rfl

theorem runTools_cons_transport (tool : ToolService) (c : ToolCall) (rest : List ToolCall)
    (e : String) (h : tool c.name c.arguments = .transportError e) :
    runTools tool (c :: rest) = ([], [toolEventOf c], some e) := by
  simp [runTools, h, toolEventOf]

theorem runTools_cons_nokey (tool : ToolService) (c : ToolCall) (rest : List ToolCall)
    (js : List (String × String)) (hres : tool c.name c.arguments = .response js)
    (hlk : List.lookup "result" js = none) :
    runTools tool (c :: rest) = ([], [toolEventOf c], some "KeyError: result") := by
  simp [runTools, hres, hlk, toolEventOf]

theorem runTools_cons_ok (tool : ToolService) (c : ToolCall) (rest : List ToolCall)
    (js : List (String × String)) (r : String) (hres : tool c.name c.arguments = .response js)
    (hlk : List.lookup "result" js = some r) :
    runTools tool (c :: rest) =
      (Message.tool c.id r :: (runTools tool rest).1,
       toolEventOf c :: (runTools tool rest).2.1,
       (runTools tool rest).2.2) := by
  simp [runTools, hres, hlk, toolEventOf]

/-- When every invocation of the turn succeeds, the inner loop sends exactly
one POST per request, in emission order, and produces one `tool` message per
request, in the same order, correlated by the request's identifier. -/
theorem runTools_eq_map (tool : ToolService) (calls : List ToolCall)
    (h : ∀ c ∈ calls, (toolResult tool c.name c.arguments).isSome) :
    runTools tool calls = (calls.map (toolMsgOf tool), calls.map toolEventOf, none) := by
  induction calls with
  | nil => rfl
  | cons c rest ih =>
    have hc := h c (List.mem_cons_self c rest)
    have hrest : ∀ x ∈ rest, (toolResult tool x.name x.arguments).isSome :=
      fun x hx => h x (List.mem_cons_of_mem c hx)
    rcases hres : tool c.name c.arguments with e | js
    · simp [toolResult, hres] at hc
    · rcases hlk : List.lookup "result" js with _ | r
      · simp [toolResult, hres, hlk] at hc
      · rw [runTools_cons_ok tool c rest js r hres hlk, ih hrest]
        simp [toolMsgOf, toolResult, hres, hlk]

/-- The events of the inner loop are the invocations of an initial segment of
the requests, in emission order. -/
theorem runTools_events_take (tool : ToolService) (calls : List ToolCall) :
    ∃ n, (runTools tool calls).2.1 = (calls.take n).map toolEventOf := by
  induction calls with
  | nil => exact ⟨0, rfl⟩
  | cons c rest ih =>
    rcases hres : tool c.name c.arguments with e | js
    · exact ⟨1, by simp [runTools_cons_transport tool c rest e hres]⟩
    · rcases hlk : List.lookup "result" js with _ | r
      · exact ⟨1, by simp [runTools_cons_nokey tool c rest js hres hlk]⟩
      · obtain ⟨n, hn⟩ := ih
        exact ⟨n + 1, by simp [runTools_cons_ok tool c rest js r hres hlk, hn]⟩

/-- Every message the inner loop appends is a `tool` message. -/
theorem runTools_msgs_tool (tool : ToolService) (calls : List ToolCall) :
    ∀ m ∈ (runTools tool calls).1, ∃ i r, m = Message.tool i r := by
  induction calls with
  | nil => intro m hm; simp [runTools_nil] at hm
  | cons c rest ih =>
    intro m hm
    rcases hres : tool c.name c.arguments with e | js
    · simp [runTools_cons_transport tool c rest e hres] at hm
    · rcases hlk : List.lookup "result" js with _ | r
      · simp [runTools_cons_nokey tool c rest js hres hlk] at hm
      · rw [runTools_cons_ok tool c rest js r hres hlk] at hm
        rcases List.mem_cons.mp hm with h | h
        · exact ⟨c.id, r, h⟩
        · exact ih m h

/-- If the inner loop succeeds, every invocation of the turn succeeded. -/
theorem runTools_none_forall (tool : ToolService) (calls : List ToolCall)
    (h : (runTools tool calls).2.2 = none) :
    ∀ c ∈ calls, (toolResult tool c.name c.arguments).isSome := by
  induction calls with
  | nil => intro c hc; simp at hc
  | cons c rest ih =>
    rcases hres : tool c.name c.arguments with e | js
    · rw [runTools_cons_transport tool c rest e hres] at h; simp at h
    · rcases hlk : List.lookup "result" js with _ | r
      · rw [runTools_cons_nokey tool c rest js hres hlk] at h; simp at h
      · rw [runTools_cons_ok tool c rest js r hres hlk] at h
        intro x hx
        rcases List.mem_cons.mp hx with hx | hx
        · subst hx; simp [toolResult, hres, hlk]
        · exact ih h x hx

end RunToolsLemmas

section ConsLemmas

theorem countChat_cons_chat (cat : ToolCatalog) (tr : List Message) (l : List Event) :
    countChat (Event.chatCall cat tr :: l) = countChat l + 1 := by
  simp [countChat]

theorem countChat_cons_tool (n a : String) (l : List Event) :
    countChat (Event.toolCall n a :: l) = countChat l := by
  simp [countChat]

theorem printedOf_cons_chat (cat : ToolCatalog) (tr : List Message) (l : List Event) :
    printedOf (Event.chatCall cat tr :: l) = printedOf l := by
  simp [printedOf]

theorem printedOf_cons_tool (n a : String) (l : List Event) :
    printedOf (Event.toolCall n a :: l) = printedOf l := by
  simp [printedOf]

theorem toolPayloads_cons_chat (cat : ToolCatalog) (tr : List Message) (l : List Event) :
    toolPayloads (Event.chatCall cat tr :: l) = toolPayloads l := by
  simp [toolPayloads]

end ConsLemmas

section RunLoopLemmas

variable (chat : ChatService) (tool : ToolService) (tools : ToolCatalog)

theorem runLoop_zero (k : Nat) (t : List Message) :
    runLoop chat tool tools 0 k t = ⟨t, [], .exhausted⟩ := rfl

theorem runLoop_succ_done (fuel k : Nat) (t : List Message)
    (h : (chat k).tool_calls = []) :
    runLoop chat tool tools (fuel + 1) k t =
      ⟨t ++ [assistantOf chat k],
       [Event.chatCall tools t, Event.printed (chat k).content],
       .completed (chat k).content⟩ := by
  simp [runLoop, assistantOf, h]

theorem runLoop_succ_crash (fuel k : Nat) (t : List Message) (e : String)
    (h : (chat k).tool_calls ≠ [])
    (hrt : (runTools tool (chat k).tool_calls).2.2 = some e) :
    runLoop chat tool tools (fuel + 1) k t =
      ⟨t ++ [assistantOf chat k] ++ (runTools tool (chat k).tool_calls).1,
       Event.chatCall tools t :: (runTools tool (chat k).tool_calls).2.1,
       .crashed e⟩ := by
  rcases hx : runTools tool (chat k).tool_calls with ⟨ms, es, err⟩
  rw [hx] at hrt
  simp only at hrt
  subst hrt
  simp [runLoop, assistantOf, h, hx]

theorem runLoop_succ_cont (fuel k : Nat) (t : List Message)
    (h : (chat k).tool_calls ≠ [])
    (hrt : (runTools tool (chat k).tool_calls).2.2 = none) :
    runLoop chat tool tools (fuel + 1) k t =
      ⟨(runLoop chat tool tools fuel (k + 1)
          (t ++ [assistantOf chat k] ++ (runTools tool (chat k).tool_calls).1)).transcript,
       Event.chatCall tools t ::
         ((runTools tool (chat k).tool_calls).2.1 ++
          (runLoop chat tool tools fuel (k + 1)
            (t ++ [assistantOf chat k] ++ (runTools tool (chat k).tool_calls).1)).trace),
       (runLoop chat tool tools fuel (k + 1)
          (t ++ [assistantOf chat k] ++ (runTools tool (chat k).tool_calls).1)).outcome⟩ := by
  rcases hx : runTools tool (chat k).tool_calls with ⟨ms, es, err⟩
  rw [hx] at hrt
  simp only at hrt
  subst hrt
  simp [runLoop, assistantOf, h, hx]

/-- The loop only ever appends: whatever transcript it starts from is a
prefix of the final transcript, and everything after it is an assistant or
`tool` message. -/
theorem runLoop_transcript_shape (fuel k : Nat) (t : List Message) :
    ∃ suf, (runLoop chat tool tools fuel k t).transcript = t ++ suf ∧
      ∀ m ∈ suf, m.isAppended = true := by
  induction fuel generalizing k t with
  | zero => exact ⟨[], by simp [runLoop_zero], by simp⟩
  | succ fuel ih =>
    by_cases h : (chat k).tool_calls = []
    · exact ⟨[assistantOf chat k],
        by simp [runLoop_succ_done chat tool tools fuel k t h],
        by simp [assistantOf, Message.isAppended]⟩
    · rcases herr : (runTools tool (chat k).tool_calls).2.2 with _ | e
      · obtain ⟨suf, hsuf, hall⟩ :=
          ih (k + 1) (t ++ [assistantOf chat k] ++ (runTools tool (chat k).tool_calls).1)
        refine ⟨[assistantOf chat k] ++ (runTools tool (chat k).tool_calls).1 ++ suf, ?_, ?_⟩
        · rw [runLoop_succ_cont chat tool tools fuel k t h herr]
          simp only at hsuf ⊢
          rw [hsuf]
          simp
        · intro m hm
          simp only [List.mem_append, List.mem_singleton] at hm
          rcases hm with (hm | hm) | hm
          · subst hm; simp [assistantOf, Message.isAppended]
          · obtain ⟨i, r, hir⟩ := runTools_msgs_tool tool (chat k).tool_calls m hm
            subst hir; simp [Message.isAppended]
          · exact hall m hm
      · refine ⟨[assistantOf chat k] ++ (runTools tool (chat k).tool_calls).1, ?_, ?_⟩
        · rw [runLoop_succ_crash chat tool tools fuel k t e h herr]
          simp
        · intro m hm
          simp only [List.mem_append, List.mem_singleton] at hm
          rcases hm with hm | hm
          · subst hm; simp [assistantOf, Message.isAppended]
          · obtain ⟨i, r, hir⟩ := runTools_msgs_tool tool (chat k).tool_calls m hm
            subst hir; simp [Message.isAppended]

/-- With `fuel` rounds remaining, at most `fuel` further chat-service calls
are made, whatever the collaborators do. -/
theorem runLoop_countChat_le (fuel k : Nat) (t : List Message) :
    countChat (runLoop chat tool tools fuel k t).trace ≤ fuel := by
  induction fuel generalizing k t with
  | zero => simp [runLoop_zero, countChat]
  | succ fuel ih =>
    by_cases h : (chat k).tool_calls = []
    · rw [runLoop_succ_done chat tool tools fuel k t h]
      simp [countChat]
    · obtain ⟨n, hn⟩ := runTools_events_take tool (chat k).tool_calls
      rcases herr : (runTools tool (chat k).tool_calls).2.2 with _ | e
      · rw [runLoop_succ_cont chat tool tools fuel k t h herr]
        simp only [countChat_cons_chat, countChat_append, hn, countChat_map_toolEventOf]
        have := ih (k + 1) (t ++ [assistantOf chat k] ++ (runTools tool (chat k).tool_calls).1)
        omega
      · rw [runLoop_succ_crash chat tool tools fuel k t e h herr]
        simp only [countChat_cons_chat, hn, countChat_map_toolEventOf]
        omega

/-- A list of `tool` messages emits no tool-call requests. -/
theorem requestsOf_eq_nil (l : List Message) (h : ∀ m ∈ l, ∃ i r, m = Message.tool i r) :
    requestsOf l = [] := by
  induction l with
  | nil => rfl
  | cons m rest ih =>
    obtain ⟨i, r, hm⟩ := h m (List.mem_cons_self m rest)
    subst hm
    have := ih fun x hx => h x (List.mem_cons_of_mem _ hx)
    simpa [requestsOf] using this

/-- When the round's assistant message carries tool calls and every
invocation yields a result, the round executes all calls and continues. -/
theorem runLoop_succ_all_ok (fuel k : Nat) (t : List Message)
    (h : (chat k).tool_calls ≠ [])
    (hall : ∀ c ∈ (chat k).tool_calls, (toolResult tool c.name c.arguments).isSome) :
    runLoop chat tool tools (fuel + 1) k t =
      ⟨(runLoop chat tool tools fuel (k + 1)
          (t ++ [assistantOf chat k] ++ (chat k).tool_calls.map (toolMsgOf tool))).transcript,
       Event.chatCall tools t ::
         ((chat k).tool_calls.map toolEventOf ++
          (runLoop chat tool tools fuel (k + 1)
            (t ++ [assistantOf chat k] ++ (chat k).tool_calls.map (toolMsgOf tool))).trace),
       (runLoop chat tool tools fuel (k + 1)
          (t ++ [assistantOf chat k] ++ (chat k).tool_calls.map (toolMsgOf tool))).outcome⟩ := by
  have hchar := runTools_eq_map tool (chat k).tool_calls hall
  have herr : (runTools tool (chat k).tool_calls).2.2 = none := by rw [hchar]
  rw [runLoop_succ_cont chat tool tools fuel k t h herr, hchar]

/-- The catalog passed on a chat call is always the one fetched at start. -/
theorem runLoop_chatCall_catalog (fuel k : Nat) (t : List Message)
    (cat : ToolCatalog) (tr : List Message)
    (hm : Event.chatCall cat tr ∈ (runLoop chat tool tools fuel k t).trace) :
    cat = tools := by
  induction fuel generalizing k t with
  | zero => simp [runLoop_zero] at hm
  | succ fuel ih =>
    by_cases h : (chat k).tool_calls = []
    · rw [runLoop_succ_done chat tool tools fuel k t h] at hm
      simp at hm
      exact hm.1
    · obtain ⟨n, hn⟩ := runTools_events_take tool (chat k).tool_calls
      rcases herr : (runTools tool (chat k).tool_calls).2.2 with _ | e
      · rw [runLoop_succ_cont chat tool tools fuel k t h herr] at hm
        simp only [List.mem_cons, List.mem_append] at hm
        rcases hm with hm | hm | hm
        · exact (Event.chatCall.inj hm).1
        · rw [hn] at hm
          obtain ⟨c, -, hc⟩ := List.mem_map.mp hm
          simp [toolEventOf] at hc
        · exact ih (k + 1) _ hm
      · rw [runLoop_succ_crash chat tool tools fuel k t e h herr] at hm
        simp only [List.mem_cons] at hm
        rcases hm with hm | hm
        · exact (Event.chatCall.inj hm).1
        · rw [hn] at hm
          obtain ⟨c, -, hc⟩ := List.mem_map.mp hm
          simp [toolEventOf] at hc

/-- Every transcript sent to the chat service is balanced: its `tool`
messages answer exactly the tool-call requests emitted so far, in order.
In particular no chat call ever observes a partial set of results. -/
theorem runLoop_chatCall_balanced (fuel k : Nat) (t : List Message)
    (hbal : toolMsgIds t = (requestsOf t).map ToolCall.id)
    (cat : ToolCatalog) (tr : List Message)
    (hm : Event.chatCall cat tr ∈ (runLoop chat tool tools fuel k t).trace) :
    toolMsgIds tr = (requestsOf tr).map ToolCall.id := by
  induction fuel generalizing k t with
  | zero => simp [runLoop_zero] at hm
  | succ fuel ih =>
    by_cases h : (chat k).tool_calls = []
    · rw [runLoop_succ_done chat tool tools fuel k t h] at hm
      simp at hm
      rw [hm.2]
      exact hbal
    · obtain ⟨n, hn⟩ := runTools_events_take tool (chat k).tool_calls
      rcases herr : (runTools tool (chat k).tool_calls).2.2 with _ | e
      · have hall := runTools_none_forall tool (chat k).tool_calls herr
        rw [runLoop_succ_all_ok chat tool tools fuel k t h hall] at hm
        simp only [List.mem_cons, List.mem_append] at hm
        rcases hm with hm | hm | hm
        · rw [(Event.chatCall.inj hm).2]
          exact hbal
        · obtain ⟨c, -, hc⟩ := List.mem_map.mp hm
          simp [toolEventOf] at hc
        · refine ih (k + 1)
            (t ++ [assistantOf chat k] ++ (chat k).tool_calls.map (toolMsgOf tool)) ?_ hm
          simp only [toolMsgIds_append, requestsOf_append, List.map_append]
          rw [hbal, toolMsgIds_map_toolMsgOf, requestsOf_map_toolMsgOf]
          simp [toolMsgIds, requestsOf, assistantOf]
      · rw [runLoop_succ_crash chat tool tools fuel k t e h herr] at hm
        simp only [List.mem_cons] at hm
        rcases hm with hm | hm
        · rw [(Event.chatCall.inj hm).2]
          exact hbal
        · rw [hn] at hm
          obtain ⟨c, -, hc⟩ := List.mem_map.mp hm
          simp [toolEventOf] at hc

/-- The POSTed payloads are exactly the names and arguments of the emitted
tool-call requests, verbatim and in order (a prefix of them when the run
crashed mid-turn; all of them otherwise). -/
theorem runLoop_payload_forwarding (fuel k : Nat) (t : List Message) :
    ∃ suf, (runLoop chat tool tools fuel k t).transcript = t ++ suf ∧
      toolPayloads (runLoop chat tool tools fuel k t).trace <+:
        (requestsOf suf).map (fun c => (c.name, c.arguments)) ∧
      ((runLoop chat tool tools fuel k t).outcome.isCrashed = false →
        toolPayloads (runLoop chat tool tools fuel k t).trace =
          (requestsOf suf).map fun c => (c.name, c.arguments)) := by
  induction fuel generalizing k t with
  | zero =>
    exact ⟨[], by simp [runLoop_zero], by simp [runLoop_zero, toolPayloads, requestsOf],
      fun _ => by simp [runLoop_zero, toolPayloads, requestsOf]⟩
  | succ fuel ih =>
    by_cases h : (chat k).tool_calls = []
    · refine ⟨[assistantOf chat k], ?_, ?_, fun _ => ?_⟩
      · simp [runLoop_succ_done chat tool tools fuel k t h]
      · simp [runLoop_succ_done chat tool tools fuel k t h, toolPayloads, requestsOf,
          assistantOf, h]
      · simp [runLoop_succ_done chat tool tools fuel k t h, toolPayloads, requestsOf,
          assistantOf, h]
    · rcases herr : (runTools tool (chat k).tool_calls).2.2 with _ | e
      · have hall := runTools_none_forall tool (chat k).tool_calls herr
        obtain ⟨suf, hsuf, hpre, heq⟩ :=
          ih (k + 1) (t ++ [assistantOf chat k] ++ (chat k).tool_calls.map (toolMsgOf tool))
        refine ⟨[assistantOf chat k] ++ (chat k).tool_calls.map (toolMsgOf tool) ++ suf,
          ?_, ?_, ?_⟩
        · rw [runLoop_succ_all_ok chat tool tools fuel k t h hall]
          simp only at hsuf ⊢
          rw [hsuf]
          simp
        · rw [runLoop_succ_all_ok chat tool tools fuel k t h hall]
          simp only [toolPayloads_cons_chat, toolPayloads_append,
            toolPayloads_map_toolEventOf, requestsOf_append, List.map_append,
            requestsOf_map_toolMsgOf]
          obtain ⟨z, hz⟩ := hpre
          refine ⟨z, ?_⟩
          rw [List.append_assoc, hz]
          simp [requestsOf, assistantOf]
        · rw [runLoop_succ_all_ok chat tool tools fuel k t h hall]
          intro hcr
          simp only [toolPayloads_cons_chat, toolPayloads_append,
            toolPayloads_map_toolEventOf, requestsOf_append, List.map_append,
            requestsOf_map_toolMsgOf]
          rw [heq hcr]
          simp [requestsOf, assistantOf]
      · obtain ⟨n, hn⟩ := runTools_events_take tool (chat k).tool_calls
        refine ⟨[assistantOf chat k] ++ (runTools tool (chat k).tool_calls).1, ?_, ?_, ?_⟩
        · rw [runLoop_succ_crash chat tool tools fuel k t e h herr]
          simp
        · rw [runLoop_succ_crash chat tool tools fuel k t e h herr]
          simp only [toolPayloads_cons_chat]
          rw [hn, toolPayloads_map_toolEventOf]
          have hms : requestsOf (runTools tool (chat k).tool_calls).1 = [] :=
            requestsOf_eq_nil _ (runTools_msgs_tool tool (chat k).tool_calls)
          simp only [requestsOf_append, List.map_append, hms]
          have hreq : requestsOf [assistantOf chat k] = (chat k).tool_calls := by
            simp [requestsOf, assistantOf]
          rw [hreq]
          simpa using
            (List.take_prefix n (chat k).tool_calls).map fun c => (c.name, c.arguments)
        · rw [runLoop_succ_crash chat tool tools fuel k t e h herr]
          intro hcr
          simp [RunOutcome.isCrashed] at hcr

/-- If every tool invocation yields a result payload, the run never ends in
an uncaught exception. -/
theorem runLoop_no_crash (htool : ∀ n a, (toolResult tool n a).isSome)
    (fuel k : Nat) (t : List Message) :
    (runLoop chat tool tools fuel k t).outcome.isCrashed = false := by
  induction fuel generalizing k t with
  | zero => simp [runLoop_zero, RunOutcome.isCrashed]
  | succ fuel ih =>
    by_cases h : (chat k).tool_calls = []
    · simp [runLoop_succ_done chat tool tools fuel k t h, RunOutcome.isCrashed]
    · rw [runLoop_succ_all_ok chat tool tools fuel k t h
        fun c _ => htool c.name c.arguments]
      exact ih (k + 1) _

/-- If the first content-only response is the j-th (0-based) and all tool
invocations succeed, the run completes with that response's content after
exactly j+1 chat calls, printing it as the sole output. -/
theorem runLoop_completes (j : Nat) : ∀ (fuel k : Nat) (t : List Message),
    j < fuel →
    (∀ i, i < j → (chat (k + i)).tool_calls ≠ []) →
    (chat (k + j)).tool_calls = [] →
    (∀ n a, (toolResult tool n a).isSome) →
    (runLoop chat tool tools fuel k t).outcome = .completed (chat (k + j)).content ∧
    countChat (runLoop chat tool tools fuel k t).trace = j + 1 ∧
    printedOf (runLoop chat tool tools fuel k t).trace = [(chat (k + j)).content] := by
  induction j with
  | zero =>
    intro fuel k t hlt hprev hdone htool
    obtain ⟨fuel₁, rfl⟩ : ∃ fuel₁, fuel = fuel₁ + 1 := ⟨fuel - 1, by omega⟩
    rw [Nat.add_zero] at hdone
    rw [runLoop_succ_done chat tool tools fuel₁ k t hdone]
    exact ⟨by simp, by simp [countChat], by simp [printedOf]⟩
  | succ j ih =>
    intro fuel k t hlt hprev hdone htool
    obtain ⟨fuel₁, rfl⟩ : ∃ fuel₁, fuel = fuel₁ + 1 := ⟨fuel - 1, by omega⟩
    have h0 : (chat k).tool_calls ≠ [] := by
      have := hprev 0 (Nat.succ_pos j)
      simpa using this
    rw [runLoop_succ_all_ok chat tool tools fuel₁ k t h0
      fun c _ => htool c.name c.arguments]
    have hrec := ih fuel₁ (k + 1)
      (t ++ [assistantOf chat k] ++ (chat k).tool_calls.map (toolMsgOf tool))
      (by omega)
      (fun i hi => by
        have := hprev (i + 1) (by omega)
        have hx : k + (i + 1) = k + 1 + i := by omega
        rw [hx] at this
        exact this)
      (by
        have hx : k + (j + 1) = k + 1 + j := by omega
        rw [← hx]
        exact hdone)
      htool
    have hidx : k + 1 + j = k + (j + 1) := by omega
    rw [hidx] at hrec
    refine ⟨hrec.1, ?_, ?_⟩
    · simp only [countChat_cons_chat, countChat_append, countChat_map_toolEventOf]
      rw [hrec.2.1]
      omega
    · simp only [printedOf_cons_chat, printedOf_append, printedOf_map_toolEventOf]
      rw [hrec.2.2]
      simp

/-- If every response up to the budget carries tool calls and all tool
invocations succeed, the loop makes exactly `fuel` chat calls, prints
nothing, and ends exhausted. -/
theorem runLoop_exhausts : ∀ (fuel k : Nat) (t : List Message),
    (∀ i, i < fuel → (chat (k + i)).tool_calls ≠ []) →
    (∀ n a, (toolResult tool n a).isSome) →
    (runLoop chat tool tools fuel k t).outcome = .exhausted ∧
    countChat (runLoop chat tool tools fuel k t).trace = fuel ∧
    printedOf (runLoop chat tool tools fuel k t).trace = [] := by
  intro fuel
  induction fuel with
  | zero =>
    intro k t _ _
    exact ⟨rfl, by simp [runLoop_zero, countChat], by simp [runLoop_zero, printedOf]⟩
  | succ fuel ih =>
    intro k t hall htool
    have h0 : (chat k).tool_calls ≠ [] := by
      have := hall 0 (Nat.succ_pos fuel)
      simpa using this
    rw [runLoop_succ_all_ok chat tool tools fuel k t h0
      fun c _ => htool c.name c.arguments]
    have hrec := ih (k + 1)
      (t ++ [assistantOf chat k] ++ (chat k).tool_calls.map (toolMsgOf tool))
      (fun i hi => by
        have := hall (i + 1) (by omega)
        have hx : k + (i + 1) = k + 1 + i := by omega
        rw [hx] at this
        exact this)
      htool
    refine ⟨hrec.1, ?_, ?_⟩
    · simp only [countChat_cons_chat, countChat_append, countChat_map_toolEventOf]
      rw [hrec.2.1]
      omega
    · simp only [printedOf_cons_chat, printedOf_append, printedOf_map_toolEventOf]
      rw [hrec.2.2]
      simp

end RunLoopLemmas

section Congruence

/-- The inner loop depends on the tool service only through its responses. -/
theorem runTools_congr (tool1 tool2 : ToolService)
    (h : ∀ n a, tool1 n a = tool2 n a) (calls : List ToolCall) :
    runTools tool1 calls = runTools tool2 calls := by
  induction calls with
  | nil => rfl
  | cons c rest ih =>
    rcases hres : tool2 c.name c.arguments with e | js
    · have h1 : tool1 c.name c.arguments = .transportError e := by rw [h]; exact hres
      rw [runTools_cons_transport tool1 c rest e h1,
        runTools_cons_transport tool2 c rest e hres]
    · rcases hlk : List.lookup "result" js with _ | r
      · have h1 : tool1 c.name c.arguments = .response js := by rw [h]; exact hres
        rw [runTools_cons_nokey tool1 c rest js h1 hlk,
          runTools_cons_nokey tool2 c rest js hres hlk]
      · have h1 : tool1 c.name c.arguments = .response js := by rw [h]; exact hres
        rw [runTools_cons_ok tool1 c rest js r h1 hlk,
          runTools_cons_ok tool2 c rest js r hres hlk, ih]

/-- The loop depends on its collaborators only through their responses. -/
theorem runLoop_congr (chat1 chat2 : ChatService) (tool1 tool2 : ToolService)
    (tools : ToolCatalog) (hc : ∀ k, chat1 k = chat2 k)
    (ht : ∀ n a, tool1 n a = tool2 n a) :
    ∀ (fuel k : Nat) (t : List Message),
      runLoop chat1 tool1 tools fuel k t = runLoop chat2 tool2 tools fuel k t := by
  intro fuel
  induction fuel with
  | zero => intro k t; rfl
  | succ fuel ih =>
    intro k t
    simp only [runLoop, hc, runTools_congr tool1 tool2 ht, ih]

end Congruence

section Examples

/-- A chat oracle that requests one search and then answers. -/
def chatW : ChatService := fun k =>
  if k = 0 then ⟨none, [⟨"t1", "search", "query=sublime"⟩]⟩
  else ⟨some "Done - annotated 3 passages.", []⟩

/-- A tool service that always returns a result payload. -/
def toolW : ToolService := fun _ _ => .response [("result", "3 passages found")]

/-- The same tool service written differently (same responses). -/
def toolW2 : ToolService := fun _ _ => .response (("result", "3 passages found") :: [])

/-- A chat oracle that requests a tool call on every round. -/
def chatLoopW : ChatService := fun _ => ⟨none, [⟨"t1", "search", "query=sublime"⟩]⟩

/-- A tool service that always fails at transport level. -/
def toolFailW : ToolService := fun _ _ => .transportError "connection refused"

/-- Three tool-call requests emitted by one assistant turn. -/
def callsW : List ToolCall :=
  [⟨"a1", "search", "q1"⟩, ⟨"b2", "annotate", "q2"⟩, ⟨"c3", "fetch", "q3"⟩]

/-- A chat oracle whose first turn emits the three requests. -/
def chatC3W : ChatService := fun k =>
  if k = 0 then ⟨none, callsW⟩ else ⟨some "ok", []⟩

end Examples

/-- C1: for every sequence of assistant responses whose k-th response
(k ≤ maxRounds) is the first to carry no tool-call requests, the run
terminates after exactly k rounds (k chat-service calls), its result is that
response's textual content, and that content is the sole printed output. -/
theorem claim_C1 (chat : ChatService) (tool : ToolService) (tools : ToolCatalog)
    (maxR : Nat) (sp ut : String) (k : Nat) (hk1 : 1 ≤ k) (hk : k ≤ maxR)
    (hfirst : ∀ i, i < k - 1 → (chat i).tool_calls ≠ [])
    (hkth : (chat (k - 1)).tool_calls = [])
    (htool : ∀ n a, (toolResult tool n a).isSome) :
    (run chat tool tools maxR sp ut).outcome = .completed (chat (k - 1)).content ∧
    countChat (run chat tool tools maxR sp ut).trace = k ∧
    printedOf (run chat tool tools maxR sp ut).trace = [(chat (k - 1)).content] := by
  have h := runLoop_completes chat tool tools (k - 1) maxR 0 (initMessages sp ut)
    (by omega)
    (fun i hi => by simpa using hfirst i hi)
    (by simpa using hkth)
    htool
  rw [Nat.zero_add] at h
  simp only [run]
  refine ⟨h.1, ?_, h.2.2⟩
  rw [h.2.1]
  omega

theorem claim_C1_witness :
    (run chatW toolW [] 10 "s" "u").outcome =
      .completed (some "Done - annotated 3 passages.") ∧
    countChat (run chatW toolW [] 10 "s" "u").trace = 2 ∧
    printedOf (run chatW toolW [] 10 "s" "u").trace =
      [some "Done - annotated 3 passages."] := by
  have h := claim_C1 chatW toolW [] 10 "s" "u" 2 (by omega) (by omega)
    (fun i hi => by
      rw [Nat.lt_one_iff] at hi
      subst hi
      simp [chatW])
    (by simp [chatW])
    (fun n a => by simp [toolResult, toolW, List.lookup])
  simpa [chatW] using h

/-- C2: if every response up to maxRounds carries tool calls, the run makes
exactly maxRounds chat-service calls and ends exhausted; and in no execution
does the number of chat-service calls exceed maxRounds. -/
theorem claim_C2 (chat : ChatService) (tool : ToolService) (tools : ToolCatalog)
    (maxR : Nat) (sp ut : String) :
    ((∀ i, i < maxR → (chat i).tool_calls ≠ []) →
      (∀ n a, (toolResult tool n a).isSome) →
      (run chat tool tools maxR sp ut).outcome = .exhausted ∧
      countChat (run chat tool tools maxR sp ut).trace = maxR) ∧
    countChat (run chat tool tools maxR sp ut).trace ≤ maxR := by
  constructor
  · intro hall htool
    have h := runLoop_exhausts chat tool tools maxR 0 (initMessages sp ut)
      (fun i hi => by simpa using hall i hi) htool
    simp only [run]
    exact ⟨h.1, h.2.1⟩
  · simpa only [run] using runLoop_countChat_le chat tool tools maxR 0 (initMessages sp ut)

theorem claim_C2_witness :
    ((run chatLoopW toolW [] 3 "s" "u").outcome = .exhausted ∧
     countChat (run chatLoopW toolW [] 3 "s" "u").trace = 3) ∧
    countChat (run chatLoopW toolW [] 3 "s" "u").trace ≤ 3 := by
  have h := claim_C2 chatLoopW toolW [] 3 "s" "u"
  exact ⟨h.1 (fun i _ => by simp [chatLoopW])
    (fun n a => by simp [toolResult, toolW, List.lookup]), h.2⟩

/-- C3: for an assistant message carrying requests [A, B, C, ...] (all of
whose invocations yield results), the tool service is invoked once per
request, sequentially in the emitted order, and the `tool` messages are
appended to the transcript in that same order, each carrying its originating
request's call identifier; shown both for the inner loop itself and for a
full run whose first turn emits the requests. -/
theorem claim_C3 (tool : ToolService) (calls : List ToolCall)
    (htool : ∀ c ∈ calls, (toolResult tool c.name c.arguments).isSome)
    (chat : ChatService) (tools : ToolCatalog) (m : Nat) (sp ut : String)
    (h0 : (chat 0).tool_calls = calls) (hne : calls ≠ [])
    (h1 : (chat 1).tool_calls = []) :
    runTools tool calls = (calls.map (toolMsgOf tool), calls.map toolEventOf, none) ∧
    (run chat tool tools (m + 2) sp ut).transcript =
      initMessages sp ut ++ [assistantOf chat 0] ++ calls.map (toolMsgOf tool) ++
        [assistantOf chat 1] ∧
    (run chat tool tools (m + 2) sp ut).trace =
      [Event.chatCall tools (initMessages sp ut)] ++ calls.map toolEventOf ++
        [Event.chatCall tools
          (initMessages sp ut ++ [assistantOf chat 0] ++ calls.map (toolMsgOf tool)),
         Event.printed (chat 1).content] := by
  have hne0 : (chat 0).tool_calls ≠ [] := by rw [h0]; exact hne
  have hall : ∀ c ∈ (chat 0).tool_calls, (toolResult tool c.name c.arguments).isSome := by
    rw [h0]; exact htool
  have h2 : m + 2 = m + 1 + 1 := rfl
  refine ⟨runTools_eq_map tool calls htool, ?_, ?_⟩
  · simp only [run, h2]
    rw [runLoop_succ_all_ok chat tool tools (m + 1) 0 (initMessages sp ut) hne0 hall]
    simp only [h0]
    rw [runLoop_succ_done chat tool tools m 1
      (initMessages sp ut ++ [assistantOf chat 0] ++ calls.map (toolMsgOf tool)) h1]
    try simp [List.append_assoc]
  · simp only [run, h2]
    rw [runLoop_succ_all_ok chat tool tools (m + 1) 0 (initMessages sp ut) hne0 hall]
    simp only [h0]
    rw [runLoop_succ_done chat tool tools m 1
      (initMessages sp ut ++ [assistantOf chat 0] ++ calls.map (toolMsgOf tool)) h1]
    try simp [List.append_assoc]

theorem claim_C3_witness :
    runTools toolW callsW =
      ([Message.tool "a1" "3 passages found", Message.tool "b2" "3 passages found",
        Message.tool "c3" "3 passages found"],
       [Event.toolCall "search" "q1", Event.toolCall "annotate" "q2",
        Event.toolCall "fetch" "q3"],
       none) := by
  have h := (claim_C3 toolW callsW
    (fun c _ => by simp [toolResult, toolW, List.lookup])
    chatC3W [] 0 "s" "u" (by simp [chatC3W]) (by simp [callsW]) (by simp [chatC3W])).1
  simpa [callsW, toolMsgOf, toolEventOf, toolResult, toolW, List.lookup] using h

/-- C4 as stated is false on the code: a failing tool invocation (here a
transport-level failure) aborts the run as an uncaught exception; no `tool`
message is recorded for it. -/
theorem claim_C4_counterexample :
    (run chatLoopW toolFailW [] 10 "s" "u").outcome = .crashed "connection refused" ∧
    toolMsgIds (run chatLoopW toolFailW [] 10 "s" "u").transcript = [] := by
  constructor <;> rfl

/-- C4 (amended): a tool failure reported in-band — the tool service
responds with a result payload, possibly one describing the failure — is
appended as a `tool` message and the run continues, never aborting; but a
transport-level failure or a response without a result payload raises an
uncaught exception that aborts the run (see the counterexample). -/
theorem claim_C4 (chat : ChatService) (tool : ToolService) (tools : ToolCatalog)
    (maxR : Nat) (sp ut : String)
    (htool : ∀ n a, (toolResult tool n a).isSome) :
    (run chat tool tools maxR sp ut).outcome.isCrashed = false := by
  simpa only [run] using runLoop_no_crash chat tool tools htool maxR 0 (initMessages sp ut)

theorem claim_C4_witness :
    (run chatLoopW toolW [] 10 "s" "u").outcome.isCrashed = false :=
  claim_C4 chatLoopW toolW [] 10 "s" "u"
    (fun n a => by simp [toolResult, toolW, List.lookup])

/-- C5: the catalog passed to the chat service is the same value, the one
fetched at run start, on every round of a single run. -/
theorem claim_C5 (chat : ChatService) (tool : ToolService) (tools : ToolCatalog)
    (maxR : Nat) (sp ut : String) (cat : ToolCatalog) (tr : List Message)
    (hm : Event.chatCall cat tr ∈ (run chat tool tools maxR sp ut).trace) :
    cat = tools :=
  runLoop_chatCall_catalog chat tool tools maxR 0 (initMessages sp ut) cat tr
    (by simpa only [run] using hm)

theorem claim_C5_witness : (["d"] : ToolCatalog) = ["d"] :=
  claim_C5 chatW toolW ["d"] 2 "s" "u" ["d"] (initMessages "s" "u")
    (List.mem_cons_self _ _)

/-- C6: the transcript starts as [system(systemPrompt), user(userTask)] and
is append-only: the first two messages persist unchanged, everything after
them is an appended assistant or `tool` message, and every intermediate
transcript is a prefix of the final one. -/
theorem claim_C6 (chat : ChatService) (tool : ToolService) (tools : ToolCatalog)
    (maxR : Nat) (sp ut : String) :
    (run chat tool tools maxR sp ut).transcript.take 2 =
      [Message.system sp, Message.user ut] ∧
    (∀ m ∈ (run chat tool tools maxR sp ut).transcript.drop 2, m.isAppended = true) ∧
    ∀ (fuel k : Nat) (t : List Message),
      t <+: (runLoop chat tool tools fuel k t).transcript := by
  obtain ⟨suf, hsuf, hall⟩ :=
    runLoop_transcript_shape chat tool tools maxR 0 (initMessages sp ut)
  refine ⟨?_, ?_, ?_⟩
  · simp only [run]
    rw [hsuf]
    simp [initMessages]
  · simp only [run]
    rw [hsuf]
    intro m hm
    apply hall
    simpa [initMessages] using hm
  · intro fuel k t
    obtain ⟨suf₁, hsuf₁, _⟩ := runLoop_transcript_shape chat tool tools fuel k t
    exact ⟨suf₁, hsuf₁.symm⟩

theorem claim_C6_witness :
    (run chatW toolW [] 2 "s" "u").transcript.take 2 =
      [Message.system "s", Message.user "u"] :=
  (claim_C6 chatW toolW [] 2 "s" "u").1

/-- C7: every transcript sent to the chat service carries the results of all
tool-call requests emitted so far, in order — the model never observes a
partial set of its own turn's tool results. -/
theorem claim_C7 (chat : ChatService) (tool : ToolService) (tools : ToolCatalog)
    (maxR : Nat) (sp ut : String) (cat : ToolCatalog) (tr : List Message)
    (hm : Event.chatCall cat tr ∈ (run chat tool tools maxR sp ut).trace) :
    toolMsgIds tr = (requestsOf tr).map ToolCall.id :=
  runLoop_chatCall_balanced chat tool tools maxR 0 (initMessages sp ut)
    (by simp [toolMsgIds, requestsOf, initMessages]) cat tr
    (by simpa only [run] using hm)

theorem claim_C7_witness :
    toolMsgIds (initMessages "s" "u") =
      (requestsOf (initMessages "s" "u")).map ToolCall.id :=
  claim_C7 chatW toolW [] 2 "s" "u" [] (initMessages "s" "u")
    (List.mem_cons_self _ _)

/-- C8: when every response up to the budget carries tool calls (and the
tool service keeps yielding results), the run ends exhausted with no result:
nothing is printed, exactly maxRounds chat calls were made, and the tool
calls made are exactly those the assistant requested. -/
theorem claim_C8 (chat : ChatService) (tool : ToolService) (tools : ToolCatalog)
    (maxR : Nat) (sp ut : String)
    (hall : ∀ i, i < maxR → (chat i).tool_calls ≠ [])
    (htool : ∀ n a, (toolResult tool n a).isSome) :
    (run chat tool tools maxR sp ut).outcome = .exhausted ∧
    printedOf (run chat tool tools maxR sp ut).trace = [] ∧
    countChat (run chat tool tools maxR sp ut).trace = maxR ∧
    toolPayloads (run chat tool tools maxR sp ut).trace =
      (requestsOf (run chat tool tools maxR sp ut).transcript).map
        fun c => (c.name, c.arguments) := by
  have h := runLoop_exhausts chat tool tools maxR 0 (initMessages sp ut)
    (fun i hi => by simpa using hall i hi) htool
  obtain ⟨suf, hsuf, hpre, heq⟩ :=
    runLoop_payload_forwarding chat tool tools maxR 0 (initMessages sp ut)
  have hcr : (runLoop chat tool tools maxR 0 (initMessages sp ut)).outcome.isCrashed
      = false := by
    rw [h.1]
    rfl
  refine ⟨by simpa only [run] using h.1, by simpa only [run] using h.2.2,
    by simpa only [run] using h.2.1, ?_⟩
  simp only [run]
  rw [heq hcr, hsuf]
  simp [requestsOf_append, initMessages, requestsOf]

theorem claim_C8_witness :
    (run chatLoopW toolW [] 3 "s" "u").outcome = .exhausted ∧
    printedOf (run chatLoopW toolW [] 3 "s" "u").trace = [] ∧
    countChat (run chatLoopW toolW [] 3 "s" "u").trace = 3 ∧
    toolPayloads (run chatLoopW toolW [] 3 "s" "u").trace =
      (requestsOf (run chatLoopW toolW [] 3 "s" "u").transcript).map
        fun c => (c.name, c.arguments) :=
  claim_C8 chatLoopW toolW [] 3 "s" "u" (fun i _ => by simp [chatLoopW])
    (fun n a => by simp [toolResult, toolW, List.lookup])

/-- C9: every payload POSTed to the tool service is exactly the name and
arguments of an emitted request, forwarded verbatim and in order: the
invocation payloads are a prefix of the emitted requests (all of them
whenever the run did not crash mid-turn). -/
theorem claim_C9 (chat : ChatService) (tool : ToolService) (tools : ToolCatalog)
    (maxR : Nat) (sp ut : String) :
    toolPayloads (run chat tool tools maxR sp ut).trace <+:
      (requestsOf (run chat tool tools maxR sp ut).transcript).map
        (fun c => (c.name, c.arguments)) ∧
    ((run chat tool tools maxR sp ut).outcome.isCrashed = false →
      toolPayloads (run chat tool tools maxR sp ut).trace =
        (requestsOf (run chat tool tools maxR sp ut).transcript).map
          fun c => (c.name, c.arguments)) := by
  obtain ⟨suf, hsuf, hpre, heq⟩ :=
    runLoop_payload_forwarding chat tool tools maxR 0 (initMessages sp ut)
  constructor
  · simp only [run]
    rw [hsuf]
    simpa [requestsOf_append, requestsOf, initMessages] using hpre
  · intro hcr
    simp only [run] at hcr ⊢
    rw [hsuf, heq hcr]
    simp [requestsOf_append, requestsOf, initMessages]

theorem claim_C9_witness :
    toolPayloads (run chatW toolW [] 2 "s" "u").trace =
      (requestsOf (run chatW toolW [] 2 "s" "u").transcript).map
        fun c => (c.name, c.arguments) :=
  (claim_C9 chatW toolW [] 2 "s" "u").2 rfl

/-- C10: the run is deterministic in its collaborators: two runs receiving
the same catalog and pointwise-identical chat-service and tool-service
responses produce identical results (final transcript, trace, and outcome,
hence identical printed output). -/
theorem claim_C10 (chat1 chat2 : ChatService) (tool1 tool2 : ToolService)
    (tools1 tools2 : ToolCatalog) (maxR : Nat) (sp ut : String)
    (hc : ∀ k, chat1 k = chat2 k) (ht : ∀ n a, tool1 n a = tool2 n a)
    (hcat : tools1 = tools2) :
    run chat1 tool1 tools1 maxR sp ut = run chat2 tool2 tools2 maxR sp ut := by
  subst hcat
  simp only [run]
  exact runLoop_congr chat1 chat2 tool1 tool2 tools1 hc ht maxR 0 (initMessages sp ut)

theorem claim_C10_witness :
    run chatW toolW [] 2 "s" "u" = run chatW toolW2 [] 2 "s" "u" :=
  claim_C10 chatW chatW toolW toolW2 [] [] 2 "s" "u"
    (fun _ => rfl) (fun _ _ => rfl) rfl

end AgentLoop
